import Mathlib

/-!
# SkySwitcher (`src/main.py`) — shallow embedding and verification

This file embeds the core of SkySwitcher v0.5.9 (`main.py`) in Lean 4:

* `InputBuffer` (`add`, `get_last_phrase`) — the keystroke history;
* the traces written to the virtual sink by `reset_modifiers`,
  `perform_layout_switch`, `replay_keys` and `fix_last_word`;
* the `SkySwitcher.run` event-loop step (`run_step`), covering shift
  tracking, trigger double-press detection and buffer feeding.

Machine key codes are `Nat` (the evdev constants), event values are `Nat`
(0 = Up, 1 = Down, 2 = auto-repeat), and wall-clock times are `ℚ`
(`time.time()` values; only comparisons against the two timeout constants
matter).  Calls to `syn()` and `time.sleep(...)` produce no key events and
are not modelled; a sink trace is the list of `write(EV_KEY, code, value)`
calls in order, as `(code, value)` pairs.
-/

/-- evdev key code constants used by `main.py` (values from `linux/input-event-codes.h`). -/
def KEY_ESC : Nat := 1
def KEY_1 : Nat := 2
def KEY_BACKSPACE : Nat := 14
def KEY_TAB : Nat := 15
def KEY_Q : Nat := 16
def KEY_ENTER : Nat := 28
def KEY_LEFTCTRL : Nat := 29
def KEY_A : Nat := 30
def KEY_S : Nat := 31
def KEY_D : Nat := 32
def KEY_LEFTSHIFT : Nat := 42
def KEY_B : Nat := 48
def KEY_SLASH : Nat := 53
def KEY_RIGHTSHIFT : Nat := 54
def KEY_LEFTALT : Nat := 56
def KEY_SPACE : Nat := 57
def KEY_CAPSLOCK : Nat := 58
def KEY_RIGHTCTRL : Nat := 97
def KEY_RIGHTALT : Nat := 100
def KEY_UP : Nat := 103
def KEY_PAGEUP : Nat := 104
def KEY_LEFT : Nat := 105
def KEY_RIGHT : Nat := 106
def KEY_DOWN : Nat := 108
def KEY_PAGEDOWN : Nat := 109
def KEY_LEFTMETA : Nat := 125
def KEY_RIGHTMETA : Nat := 126

/-- `DOUBLE_PRESS_DELAY = 0.5` seconds (`main.py` line 23). -/
def DOUBLE_PRESS_DELAY : ℚ := 1/2

/-- `TYPING_TIMEOUT = 3.0` seconds (`main.py` line 24). -/
def TYPING_TIMEOUT : ℚ := 3

/-- `MAX_BUFFER_SIZE = 100` (`main.py` line 25). -/
def MAX_BUFFER_SIZE : Nat := 100

/-- One buffered keystroke: `(keycode, is_shifted)` as stored in `InputBuffer.buffer`. -/
abbrev Keystroke := Nat × Bool

/-- `self.trackable_range = range(e.KEY_1, e.KEY_SLASH + 1)` (`main.py` line 166):
membership test `keycode in self.trackable_range`. -/
def in_trackable_range (keycode : Nat) : Bool :=
  KEY_1 ≤ keycode && keycode ≤ KEY_SLASH

/-- State of `InputBuffer`: the `buffer` list and `last_key_time`. -/
structure InputBufferState where
  buffer : List Keystroke
  last_key_time : ℚ
  deriving Repr, DecidableEq

/-- `InputBuffer.add(keycode, is_shifted)` (`main.py` lines 168-189), with the
current wall-clock time `now` passed explicitly.  Clears the buffer when more
than `TYPING_TIMEOUT` elapsed since the previous call, refreshes
`last_key_time`, pops on Backspace, appends Space / trackable-range codes and
drops the oldest element above `MAX_BUFFER_SIZE`. -/
def InputBuffer.add (s : InputBufferState) (now : ℚ) (keycode : Nat)
    (is_shifted : Bool) : InputBufferState :=
  let buf0 := if now - s.last_key_time > TYPING_TIMEOUT then
                (if s.buffer ≠ [] then [] else s.buffer)
              else s.buffer
  if keycode = KEY_BACKSPACE then
    { buffer := if buf0 ≠ [] then buf0.dropLast else buf0, last_key_time := now }
  else if keycode = KEY_SPACE || in_trackable_range keycode then
    let b := buf0 ++ [(keycode, is_shifted)]
    { buffer := if b.length > MAX_BUFFER_SIZE then b.tail else b,
      last_key_time := now }
  else
    { buffer := buf0, last_key_time := now }

/-- `InputBuffer.add` with the idle-timeout clearing step removed — the
timeout-free reference behaviour that `add` coincides with on any call chain
whose gaps stay within `TYPING_TIMEOUT`. -/
def InputBuffer.add_no_timeout (s : InputBufferState) (now : ℚ) (keycode : Nat)
    (is_shifted : Bool) : InputBufferState :=
  if keycode = KEY_BACKSPACE then
    { buffer := if s.buffer ≠ [] then s.buffer.dropLast else s.buffer,
      last_key_time := now }
  else if keycode = KEY_SPACE || in_trackable_range keycode then
    let b := s.buffer ++ [(keycode, is_shifted)]
    { buffer := if b.length > MAX_BUFFER_SIZE then b.tail else b,
      last_key_time := now }
  else
    { buffer := s.buffer, last_key_time := now }

/-- A sequence of `InputBuffer.add` calls: `(now, keycode, is_shifted)` each. -/
def add_fold (s : InputBufferState) : List (ℚ × Nat × Bool) → InputBufferState
  | [] => s
  | (t, c, sh) :: rest => add_fold (InputBuffer.add s t c sh) rest

/-- The same call sequence against the timeout-free `add_no_timeout`. -/
def add_fold_no_timeout (s : InputBufferState) :
    List (ℚ × Nat × Bool) → InputBufferState
  | [] => s
  | (t, c, sh) :: rest =>
    add_fold_no_timeout (InputBuffer.add_no_timeout s t c sh) rest

/-- Each call of the sequence happens within `TYPING_TIMEOUT` of the previous
one (the first one within the timeout of the given reference time). -/
def gaps_within_timeout : ℚ → List (ℚ × Nat × Bool) → Prop
  | _, [] => True
  | prev, (t, _, _) :: rest =>
    t - prev ≤ TYPING_TIMEOUT ∧ gaps_within_timeout t rest

/-- The backward scan of `InputBuffer.get_last_phrase` (`main.py` lines 206-215):
iterate over the reversed buffer with the `found_char` flag, prepending kept
items to `result` (`result.insert(0, item)`), and stop at the first Space
after a non-space character. -/
def phrase_scan : List Keystroke → Bool → List Keystroke → List Keystroke
  | [], _, result => result
  | item :: rest, found_char, result =>
    if item.1 = KEY_SPACE then
      if found_char then result
      else phrase_scan rest found_char (item :: result)
    else phrase_scan rest true (item :: result)

/-- `InputBuffer.get_last_phrase()` (`main.py` lines 191-217). -/
def InputBuffer.get_last_phrase (buffer : List Keystroke) : List Keystroke :=
  if buffer = [] then []
  else phrase_scan buffer.reverse false []

/-- A keystroke whose code is Space. -/
def isSpaceKS (p : Keystroke) : Bool := p.1 = KEY_SPACE

/-- Spec-side description of `lastPhrase()` (spec §4.4 / §8): the trailing run
of Space entries, preceded by the maximal run of non-Space entries immediately
before it, in original order. -/
def lastPhraseSpec (buffer : List Keystroke) : List Keystroke :=
  let r := buffer.reverse
  ((r.dropWhile isSpaceKS).takeWhile (fun p => !isSpaceKS p)).reverse
    ++ (r.takeWhile isSpaceKS).reverse

/-- One `write(EV_KEY, code, value)` call on the virtual sink. -/
abbrev SinkEv := Nat × Nat

/-- `HOTKEY_STYLES` (`main.py` lines 35-40). -/
def HOTKEY_STYLES_alt : List Nat := [KEY_LEFTALT, KEY_LEFTSHIFT]
def HOTKEY_STYLES_meta : List Nat := [KEY_LEFTMETA, KEY_SPACE]
def HOTKEY_STYLES_caps : List Nat := [KEY_CAPSLOCK]
def HOTKEY_STYLES_ctrl : List Nat := [KEY_LEFTCTRL, KEY_LEFTSHIFT]

/-- Sink trace of `SkySwitcher.reset_modifiers` (`main.py` lines 317-336):
one release event per modifier, in the order of the `modifiers` list. -/
def reset_modifiers : List SinkEv :=
  [KEY_LEFTSHIFT, KEY_RIGHTSHIFT,
   KEY_LEFTCTRL, KEY_RIGHTCTRL,
   KEY_LEFTALT, KEY_RIGHTALT,
   KEY_LEFTMETA, KEY_RIGHTMETA].map (fun key => (key, 0))

/-- Sink trace of `SkySwitcher.perform_layout_switch` (`main.py` lines 266-296),
for the configured `switch_keys`: nothing when the list is empty; otherwise
press every key in order, then release every key in the same order
(the source comment: "DO NOT use reversed() here"). -/
def perform_layout_switch (switch_keys : List Nat) : List SinkEv :=
  if switch_keys = [] then []
  else switch_keys.map (fun k => (k, 1)) ++ switch_keys.map (fun k => (k, 0))

/-- Sink trace of `SkySwitcher.replay_keys` (`main.py` lines 298-315): each
`(code, use_shift)` becomes press/release of `code`, wrapped in a Shift
press/release exactly when `use_shift` is true. -/
def replay_keys (key_sequence : List Keystroke) : List SinkEv :=
  key_sequence.flatMap (fun p =>
    (if p.2 then [(KEY_LEFTSHIFT, 1)] else [])
      ++ [(p.1, 1), (p.1, 0)]
      ++ (if p.2 then [(KEY_LEFTSHIFT, 0)] else []))

/-- Sink trace of `SkySwitcher.fix_last_word` (`main.py` lines 338-370):
query `get_last_phrase`; on an empty phrase return without writing; otherwise
reset modifiers, emit one Backspace press/release per phrase element
(`for _ in range(len(keys_to_replay))`), perform the layout switch, and replay
the phrase.  The source never mutates `input_buffer` here. -/
def fix_last_word (buffer : List Keystroke) (switch_keys : List Nat) :
    List SinkEv :=
  let keys_to_replay := InputBuffer.get_last_phrase buffer
  if keys_to_replay = [] then []
  else
    reset_modifiers
      ++ (List.range keys_to_replay.length).flatMap
           (fun _ => [(KEY_BACKSPACE, 1), (KEY_BACKSPACE, 0)])
      ++ perform_layout_switch switch_keys
      ++ replay_keys keys_to_replay

/-- One `EV_KEY` event from the physical device: `event.code`, `event.value`
(0 = Up, 1 = Down, 2 = auto-repeat) and its arrival time (`time.time()`). -/
structure KeyEvent where
  code : Nat
  value : Nat
  time : ℚ
  deriving Repr, DecidableEq

/-- The mutable state of `SkySwitcher.run` (`main.py` lines 259-264): the
input buffer plus `last_press_time`, `trigger_released`, `shift_pressed`
and `pending_action`. -/
structure SwitcherState where
  input_buffer : InputBufferState
  last_press_time : ℚ
  trigger_released : Bool
  shift_pressed : Bool
  pending_action : Bool
  deriving Repr, DecidableEq

/-- `self.trigger_btn = e.KEY_RIGHTSHIFT` (`main.py` line 262). -/
def trigger_btn : Nat := KEY_RIGHTSHIFT

/-- One iteration of the `for event in self.device.read_loop()` body for an
`EV_KEY` event (`main.py` lines 395-431).  Returns the new state, whether
`fix_last_word` was invoked during the step, and the sink trace the step
wrote.  Shift state is updated first; a trigger Down arms or confirms the
double press (confirmation needs `trigger_released` and the
`DOUBLE_PRESS_DELAY` window); a trigger Up runs the pending correction; any
other key's Down or auto-repeat is fed to the buffer and cancels a pending
first-press window by zeroing `last_press_time`. -/
def run_step (switch_keys : List Nat) (st : SwitcherState) (ev : KeyEvent) :
    SwitcherState × Bool × List SinkEv :=
  let st1 :=
    if ev.code = KEY_LEFTSHIFT ∨ ev.code = KEY_RIGHTSHIFT then
      { st with shift_pressed := ev.value == 1 || ev.value == 2 }
    else st
  if ev.code = trigger_btn then
    if ev.value = 1 then
      if ev.time - st1.last_press_time < DOUBLE_PRESS_DELAY ∧ st1.trigger_released then
        ({ st1 with pending_action := true, last_press_time := 0,
                    trigger_released := false }, false, [])
      else
        ({ st1 with last_press_time := ev.time, pending_action := false,
                    trigger_released := false }, false, [])
    else if ev.value = 0 then
      if st1.pending_action then
        ({ st1 with trigger_released := true, pending_action := false }, true,
          fix_last_word st1.input_buffer.buffer switch_keys)
      else
        ({ st1 with trigger_released := true }, false, [])
    else (st1, false, [])
  else if ev.value = 1 ∨ ev.value = 2 then
    let st2 :=
      if ev.code ≠ trigger_btn then
        { st1 with input_buffer :=
            InputBuffer.add st1.input_buffer ev.time ev.code st1.shift_pressed }
      else st1
    let st3 := if st2.last_press_time > 0 then { st2 with last_press_time := 0 }
               else st2
    (st3, false, [])
  else (st1, false, [])

/-- Process a list of events through `run_step`, recording whether any step
invoked `fix_last_word`. -/
def run_many (switch_keys : List Nat) : SwitcherState → List KeyEvent →
    SwitcherState × Bool
  | st, [] => (st, false)
  | st, ev :: rest =>
    let r := run_step switch_keys st ev
    let r2 := run_many switch_keys r.1 rest
    (r2.1, r.2.1 || r2.2)

/-- The buffer-and-shift projection of the event loop for non-trigger events:
update the shift flag, then feed `(time, code, shift)` to `InputBuffer.add`. -/
def buffer_feed : InputBufferState → Bool → List KeyEvent →
    InputBufferState × Bool
  | b, shift, [] => (b, shift)
  | b, shift, ev :: rest =>
    let shift1 := if ev.code = KEY_LEFTSHIFT ∨ ev.code = KEY_RIGHTSHIFT
                  then (ev.value == 1 || ev.value == 2) else shift
    buffer_feed (InputBuffer.add b ev.time ev.code shift1) shift1 rest

/-- All events of the list are trigger-key Downs or auto-repeats (no Up). -/
def all_trigger_down_or_repeat (evs : List KeyEvent) : Prop :=
  ∀ ev ∈ evs, ev.code = trigger_btn ∧ (ev.value = 1 ∨ ev.value = 2)

/-- The number of Down (`value = 1`) transitions in the list. -/
def trigger_down_count (evs : List KeyEvent) : Nat :=
  evs.countP (fun ev => ev.value == 1)

/-- All events of the list are Downs or auto-repeats of non-trigger keys. -/
def non_trigger_typing (evs : List KeyEvent) : Prop :=
  ∀ ev ∈ evs, ev.code ≠ trigger_btn ∧ (ev.value = 1 ∨ ev.value = 2)

/-- After the scan has seen a non-space (`found_char = true`) it collects the
maximal leading run of non-space items. -/
theorem phrase_scan_true (l : List Keystroke) (acc : List Keystroke) :
    phrase_scan l true acc = (l.takeWhile (fun p => !isSpaceKS p)).reverse ++ acc := by
  induction l generalizing acc with
  | nil => simp [phrase_scan]
  | cons item rest ih =>
    by_cases h : item.1 = KEY_SPACE
    · simp [phrase_scan, h, List.takeWhile, isSpaceKS]
    · simp [phrase_scan, h, List.takeWhile, isSpaceKS, ih]

/-- Before any non-space is seen (`found_char = false`) the scan collects the
leading spaces, then the following run of non-space items. -/
theorem phrase_scan_false (l : List Keystroke) (acc : List Keystroke) :
    phrase_scan l false acc =
      ((l.dropWhile isSpaceKS).takeWhile (fun p => !isSpaceKS p)).reverse
        ++ (l.takeWhile isSpaceKS).reverse ++ acc := by
  induction l generalizing acc with
  | nil => simp [phrase_scan]
  | cons item rest ih =>
    by_cases h : item.1 = KEY_SPACE
    · simp [phrase_scan, h, List.takeWhile, List.dropWhile, isSpaceKS, ih]
    · simp [phrase_scan, h, List.takeWhile, List.dropWhile, isSpaceKS,
        phrase_scan_true]

/-- The characterization of `get_last_phrase` shared by several developments
below: it equals the spec-side `lastPhraseSpec`. -/
theorem get_last_phrase_characterization (buffer : List Keystroke) :
    InputBuffer.get_last_phrase buffer = lastPhraseSpec buffer := by
  rcases h : buffer with _ | ⟨a, rest⟩
  · simp [InputBuffer.get_last_phrase, lastPhraseSpec]
  · simp only [InputBuffer.get_last_phrase, lastPhraseSpec, phrase_scan_false]
    simp

/-- C3: For every buffer contents, `get_last_phrase` returns exactly the
trailing run of Space entries plus the immediately preceding maximal run of
non-Space entries, in original order (the whole sequence when no Space occurs;
empty on the empty buffer). -/
theorem get_last_phrase_eq_lastPhraseSpec (buffer : List Keystroke) :
    InputBuffer.get_last_phrase buffer = lastPhraseSpec buffer :=
  get_last_phrase_characterization buffer

/-- C7: with an empty keystroke buffer, `fix_last_word` writes no events at
all to the virtual sink, whatever the configured hotkey combination. -/
theorem fix_last_word_empty_buffer_noop (switch_keys : List Nat) :
    fix_last_word [] switch_keys = [] := by
  simp [fix_last_word, InputBuffer.get_last_phrase]

/-- C8: in the layout-switch trace, the key codes of the release events appear
in exactly the same order as the key codes of the press events. -/
theorem perform_layout_switch_release_order (switch_keys : List Nat) :
    ((perform_layout_switch switch_keys).filter (fun ev => ev.2 = 0)).map Prod.fst
      = ((perform_layout_switch switch_keys).filter (fun ev => ev.2 = 1)).map Prod.fst := by
  have press_keep : ∀ ks : List Nat,
      ((ks.map (fun k => ((k, 1) : SinkEv))).filter (fun ev => ev.2 = 1)).map Prod.fst = ks := by
    intro ks; induction ks with
    | nil => simp
    | cons a l ih => simpa using ih
  have press_drop : ∀ ks : List Nat,
      (ks.map (fun k => ((k, 1) : SinkEv))).filter (fun ev => ev.2 = 0) = [] := by
    intro ks; induction ks with
    | nil => simp
    | cons a l ih => simp [ih]
  have rel_keep : ∀ ks : List Nat,
      ((ks.map (fun k => ((k, 0) : SinkEv))).filter (fun ev => ev.2 = 0)).map Prod.fst = ks := by
    intro ks; induction ks with
    | nil => simp
    | cons a l ih => simpa using ih
  have rel_drop : ∀ ks : List Nat,
      (ks.map (fun k => ((k, 0) : SinkEv))).filter (fun ev => ev.2 = 1) = [] := by
    intro ks; induction ks with
    | nil => simp
    | cons a l ih => simp [ih]
  by_cases h : switch_keys = []
  · simp [perform_layout_switch, h]
  · simp only [perform_layout_switch, if_neg h, List.filter_append, List.map_append,
      press_keep, press_drop, rel_keep, rel_drop, List.map_nil, List.nil_append,
      List.append_nil]

/-- A trigger-key Down always leaves `trigger_released = false`, never invokes
the correction, and — when the key was not fully released beforehand — also
forces `pending_action = false` (the auto-repeat guard). -/
theorem run_step_trigger_down (switch_keys : List Nat) (st : SwitcherState)
    (ev : KeyEvent) (hcode : ev.code = trigger_btn) (hv : ev.value = 1) :
    (run_step switch_keys st ev).2.1 = false ∧
    (run_step switch_keys st ev).1.trigger_released = false ∧
    (st.trigger_released = false →
      (run_step switch_keys st ev).1.pending_action = false) := by
  have hsh : ev.code = KEY_LEFTSHIFT ∨ ev.code = KEY_RIGHTSHIFT := by
    right; simpa [trigger_btn, KEY_RIGHTSHIFT] using hcode
  by_cases hcond : ev.time - st.last_press_time < DOUBLE_PRESS_DELAY ∧ st.trigger_released
  · simp [run_step, hcode, hv, hcond, trigger_btn, KEY_RIGHTSHIFT, KEY_LEFTSHIFT]
  · simp [run_step, hcode, hv, hcond, trigger_btn, KEY_RIGHTSHIFT, KEY_LEFTSHIFT]

/-- A trigger-key auto-repeat event (`value = 2`) changes nothing except the
tracked shift flag: `pending_action`, `trigger_released` and the buffer are
untouched, and the correction is not invoked. -/
theorem run_step_trigger_repeat (switch_keys : List Nat) (st : SwitcherState)
    (ev : KeyEvent) (hcode : ev.code = trigger_btn) (hv : ev.value = 2) :
    (run_step switch_keys st ev).2.1 = false ∧
    (run_step switch_keys st ev).1.trigger_released = st.trigger_released ∧
    (run_step switch_keys st ev).1.pending_action = st.pending_action ∧
    (run_step switch_keys st ev).1.input_buffer = st.input_buffer := by
  simp [run_step, hcode, hv, trigger_btn, KEY_RIGHTSHIFT, KEY_LEFTSHIFT]

/-- C6: the confirmed-double-press action (`fix_last_word`) is invoked only
while processing an Up transition of the trigger key — never on the second
Down itself, and never on any other key's event. -/
theorem fix_fires_only_on_trigger_release (switch_keys : List Nat)
    (st : SwitcherState) (ev : KeyEvent)
    (h : (run_step switch_keys st ev).2.1 = true) :
    ev.code = trigger_btn ∧ ev.value = 0 := by
  by_cases hcode : ev.code = trigger_btn
  · refine ⟨hcode, ?_⟩
    by_cases hv0 : ev.value = 0
    · exact hv0
    · exfalso
      by_cases hv1 : ev.value = 1
      · have := (run_step_trigger_down switch_keys st ev hcode hv1).1
        rw [h] at this; exact Bool.true_eq_false.mp this
      · simp [run_step, hcode, hv0, hv1, trigger_btn, KEY_RIGHTSHIFT,
          KEY_LEFTSHIFT] at h
  · exfalso
    by_cases hv : ev.value = 1 ∨ ev.value = 2
    · by_cases hsh : ev.code = KEY_LEFTSHIFT ∨ ev.code = KEY_RIGHTSHIFT
      · simp only [run_step, if_pos hsh, if_neg hcode, if_pos hv] at h
        simp at h
      · simp only [run_step, if_neg hsh, if_neg hcode, if_pos hv] at h
        simp at h
    · by_cases hsh : ev.code = KEY_LEFTSHIFT ∨ ev.code = KEY_RIGHTSHIFT
      · simp [run_step, hsh, hcode, hv] at h
      · simp [run_step, hsh, hcode, hv] at h

/-- Witness for C6: from a state with a pending confirmation, the trigger
key's Up event does invoke the correction, and the theorem places that
invocation on a trigger Up. -/
theorem fix_fires_only_on_trigger_release_witness :
    (⟨KEY_RIGHTSHIFT, 0, 2⟩ : KeyEvent).code = trigger_btn ∧
    (⟨KEY_RIGHTSHIFT, 0, 2⟩ : KeyEvent).value = 0 :=
  fix_fires_only_on_trigger_release HOTKEY_STYLES_meta
    { input_buffer := ⟨[(KEY_A, false)], 0⟩, last_press_time := 0,
      trigger_released := false, shift_pressed := true, pending_action := true }
    ⟨KEY_RIGHTSHIFT, 0, 2⟩
    (by norm_num [run_step, trigger_btn, KEY_RIGHTSHIFT, KEY_LEFTSHIFT])

/-- Loop invariant for trigger-only Down/auto-repeat sequences: no step
invokes the correction; any Down pins `trigger_released` to false; a Down
that finds `trigger_released = false` forces `pending_action` to false; and
with two or more Downs the final `pending_action` is false whatever the
starting state and the timestamps. -/
theorem run_many_autorepeat_inv (switch_keys : List Nat) (evs : List KeyEvent) :
    ∀ st : SwitcherState, all_trigger_down_or_repeat evs →
      (run_many switch_keys st evs).2 = false ∧
      (trigger_down_count evs = 0 →
        (run_many switch_keys st evs).1.pending_action = st.pending_action ∧
        (run_many switch_keys st evs).1.trigger_released = st.trigger_released) ∧
      (1 ≤ trigger_down_count evs →
        (run_many switch_keys st evs).1.trigger_released = false) ∧
      (1 ≤ trigger_down_count evs → st.trigger_released = false →
        (run_many switch_keys st evs).1.pending_action = false) ∧
      (2 ≤ trigger_down_count evs →
        (run_many switch_keys st evs).1.pending_action = false) := by
  induction evs with
  | nil =>
    intro st _
    simp [run_many, trigger_down_count]
  | cons ev rest ih =>
    intro st h
    obtain ⟨hcode, hval⟩ := h ev (List.mem_cons_self ev rest)
    have hrest : all_trigger_down_or_repeat rest :=
      fun e he => h e (List.mem_cons_of_mem ev he)
    have hfst : (run_many switch_keys st (ev :: rest)).1
        = (run_many switch_keys (run_step switch_keys st ev).1 rest).1 := rfl
    have hsnd : (run_many switch_keys st (ev :: rest)).2
        = ((run_step switch_keys st ev).2.1
            || (run_many switch_keys (run_step switch_keys st ev).1 rest).2) := rfl
    obtain ⟨ihf, ih0, ihr, ihp1, ihp2⟩ := ih (run_step switch_keys st ev).1 hrest
    rw [hfst, hsnd]
    rcases hval with hv | hv
    · obtain ⟨hf, hrel, hpen⟩ := run_step_trigger_down switch_keys st ev hcode hv
      have hcount : trigger_down_count (ev :: rest)
          = trigger_down_count rest + 1 := by
        simp [trigger_down_count, List.countP_cons, hv]
      refine ⟨by simp [hf, ihf], ?_, ?_, ?_, ?_⟩
      · intro h0; rw [hcount] at h0; omega
      · intro _
        rcases Nat.eq_zero_or_pos (trigger_down_count rest) with hz | hp
        · rw [(ih0 hz).2, hrel]
        · exact ihr hp
      · intro _ hstrel
        rcases Nat.eq_zero_or_pos (trigger_down_count rest) with hz | hp
        · rw [(ih0 hz).1, hpen hstrel]
        · exact ihp1 hp hrel
      · intro h2
        rw [hcount] at h2
        exact ihp1 (by omega) hrel
    · obtain ⟨hf, hrel, hpen, _⟩ := run_step_trigger_repeat switch_keys st ev hcode hv
      have hcount : trigger_down_count (ev :: rest) = trigger_down_count rest := by
        simp [trigger_down_count, List.countP_cons, hv]
      refine ⟨by simp [hf, ihf], ?_, ?_, ?_, ?_⟩
      · intro h0
        rw [hcount] at h0
        exact ⟨by rw [(ih0 h0).1, hpen], by rw [(ih0 h0).2, hrel]⟩
      · intro h1; rw [hcount] at h1; exact ihr h1
      · intro h1 hstrel
        rw [hcount] at h1
        exact ihp1 h1 (by rw [hrel]; exact hstrel)
      · intro h2; rw [hcount] at h2; exact ihp2 h2

/-- C5: a sequence of trigger-key Down / auto-repeat events with no
intervening Up and at least two Down transitions never confirms a double
press: no step invokes the correction and `pending_action` ends false,
regardless of every timestamp. -/
theorem autorepeat_never_confirms (switch_keys : List Nat) (st : SwitcherState)
    (evs : List KeyEvent) (h : all_trigger_down_or_repeat evs)
    (h2 : 2 ≤ trigger_down_count evs) :
    (run_many switch_keys st evs).2 = false ∧
    (run_many switch_keys st evs).1.pending_action = false := by
  obtain ⟨hf, _, _, _, hp⟩ := run_many_autorepeat_inv switch_keys evs st h
  exact ⟨hf, hp h2⟩

/-- Witness for C5: two fast trigger Downs with an auto-repeat in between
(never an Up) leave no pending confirmation and fire nothing. -/
theorem autorepeat_never_confirms_witness :
    (run_many HOTKEY_STYLES_meta
        { input_buffer := ⟨[(KEY_A, false)], 0⟩, last_press_time := 0,
          trigger_released := true, shift_pressed := false,
          pending_action := false }
        [⟨KEY_RIGHTSHIFT, 1, 1⟩, ⟨KEY_RIGHTSHIFT, 2, (11 : ℚ)/10⟩,
         ⟨KEY_RIGHTSHIFT, 1, (12 : ℚ)/10⟩]).2 = false ∧
    (run_many HOTKEY_STYLES_meta
        { input_buffer := ⟨[(KEY_A, false)], 0⟩, last_press_time := 0,
          trigger_released := true, shift_pressed := false,
          pending_action := false }
        [⟨KEY_RIGHTSHIFT, 1, 1⟩, ⟨KEY_RIGHTSHIFT, 2, (11 : ℚ)/10⟩,
         ⟨KEY_RIGHTSHIFT, 1, (12 : ℚ)/10⟩]).1.pending_action = false :=
  autorepeat_never_confirms HOTKEY_STYLES_meta _ _
    (by
      intro ev hev
      simp only [List.mem_cons, List.not_mem_nil, or_false] at hev
      rcases hev with rfl | rfl | rfl <;>
        simp [trigger_btn, KEY_RIGHTSHIFT])
    (by simp [trigger_down_count, List.countP_cons])

/-- A non-trigger key's Down or auto-repeat never invokes the correction and
never touches `pending_action` or `trigger_released`; it feeds the buffer
through `InputBuffer.add` using the freshly updated shift flag. -/
theorem run_step_non_trigger (switch_keys : List Nat) (st : SwitcherState)
    (ev : KeyEvent) (hcode : ev.code ≠ trigger_btn)
    (hv : ev.value = 1 ∨ ev.value = 2) :
    (run_step switch_keys st ev).2.1 = false ∧
    (run_step switch_keys st ev).1.pending_action = st.pending_action ∧
    (run_step switch_keys st ev).1.trigger_released = st.trigger_released ∧
    (run_step switch_keys st ev).1.input_buffer
      = InputBuffer.add st.input_buffer ev.time ev.code
          (if ev.code = KEY_LEFTSHIFT ∨ ev.code = KEY_RIGHTSHIFT
           then (ev.value == 1 || ev.value == 2) else st.shift_pressed) ∧
    (run_step switch_keys st ev).1.shift_pressed
      = (if ev.code = KEY_LEFTSHIFT ∨ ev.code = KEY_RIGHTSHIFT
         then (ev.value == 1 || ev.value == 2) else st.shift_pressed) := by
  by_cases hsh : ev.code = KEY_LEFTSHIFT ∨ ev.code = KEY_RIGHTSHIFT
  · by_cases hlpt : st.last_press_time > 0
    · simp [run_step, hcode, hv, hsh, hlpt]
    · simp [run_step, hcode, hv, hsh, hlpt]
  · by_cases hlpt : st.last_press_time > 0
    · simp [run_step, hcode, hv, hsh, hlpt]
    · simp [run_step, hcode, hv, hsh, hlpt]

/-- Loop invariant for non-trigger Down/auto-repeat sequences: nothing fires,
`pending_action` and `trigger_released` are preserved, and the buffer and
shift flag evolve exactly as the `buffer_feed` projection describes. -/
theorem run_many_non_trigger (switch_keys : List Nat) (evs : List KeyEvent) :
    ∀ st : SwitcherState, non_trigger_typing evs →
      (run_many switch_keys st evs).2 = false ∧
      (run_many switch_keys st evs).1.pending_action = st.pending_action ∧
      (run_many switch_keys st evs).1.trigger_released = st.trigger_released ∧
      (run_many switch_keys st evs).1.input_buffer
        = (buffer_feed st.input_buffer st.shift_pressed evs).1 ∧
      (run_many switch_keys st evs).1.shift_pressed
        = (buffer_feed st.input_buffer st.shift_pressed evs).2 := by
  induction evs with
  | nil =>
    intro st _
    simp [run_many, buffer_feed]
  | cons ev rest ih =>
    intro st h
    obtain ⟨hcode, hval⟩ := h ev (List.mem_cons_self ev rest)
    have hrest : non_trigger_typing rest :=
      fun e he => h e (List.mem_cons_of_mem ev he)
    have hfst : (run_many switch_keys st (ev :: rest)).1
        = (run_many switch_keys (run_step switch_keys st ev).1 rest).1 := rfl
    have hsnd : (run_many switch_keys st (ev :: rest)).2
        = ((run_step switch_keys st ev).2.1
            || (run_many switch_keys (run_step switch_keys st ev).1 rest).2) := rfl
    obtain ⟨ihf, ihp, ihr, ihb, ihs⟩ := ih (run_step switch_keys st ev).1 hrest
    obtain ⟨hf, hp, hr, hb, hs⟩ := run_step_non_trigger switch_keys st ev hcode hval
    have hfeed : buffer_feed st.input_buffer st.shift_pressed (ev :: rest)
        = buffer_feed
            (InputBuffer.add st.input_buffer ev.time ev.code
              (if ev.code = KEY_LEFTSHIFT ∨ ev.code = KEY_RIGHTSHIFT
               then (ev.value == 1 || ev.value == 2) else st.shift_pressed))
            (if ev.code = KEY_LEFTSHIFT ∨ ev.code = KEY_RIGHTSHIFT
             then (ev.value == 1 || ev.value == 2) else st.shift_pressed)
            rest := rfl
    rw [hfst, hsnd, hfeed]
    refine ⟨by simp [hf, ihf], by rw [ihp, hp], by rw [ihr, hr], ?_, ?_⟩
    · rw [ihb, hb, hs]
    · rw [ihs, hb, hs]

/-- A trigger Up processed in a state with a pending confirmation invokes
`fix_last_word` on the current buffer and leaves the buffer untouched. -/
theorem run_step_trigger_up_pending (switch_keys : List Nat)
    (st : SwitcherState) (t : ℚ) (hp : st.pending_action = true) :
    (run_step switch_keys st ⟨trigger_btn, 0, t⟩).2.1 = true ∧
    (run_step switch_keys st ⟨trigger_btn, 0, t⟩).2.2
      = fix_last_word st.input_buffer.buffer switch_keys ∧
    (run_step switch_keys st ⟨trigger_btn, 0, t⟩).1.input_buffer
      = st.input_buffer := by
  simp [run_step, hp, trigger_btn, KEY_RIGHTSHIFT, KEY_LEFTSHIFT]

/-- C10: once a double press is confirmed (`pending_action` set), Downs and
auto-repeats of non-trigger keys before the trigger's Up do not cancel it:
the correction still fires at the trigger release, those keystrokes have been
fed into the buffer (per `buffer_feed`), and the release replays from that
updated buffer. -/
theorem pending_survives_other_keys (switch_keys : List Nat)
    (st : SwitcherState) (evs : List KeyEvent) (t : ℚ)
    (hp : st.pending_action = true) (hevs : non_trigger_typing evs) :
    (run_many switch_keys st evs).1.pending_action = true ∧
    (run_many switch_keys st evs).1.input_buffer
      = (buffer_feed st.input_buffer st.shift_pressed evs).1 ∧
    (run_step switch_keys (run_many switch_keys st evs).1
        ⟨trigger_btn, 0, t⟩).2.1 = true ∧
    (run_step switch_keys (run_many switch_keys st evs).1
        ⟨trigger_btn, 0, t⟩).2.2
      = fix_last_word (buffer_feed st.input_buffer st.shift_pressed evs).1.buffer
          switch_keys := by
  obtain ⟨_, hpend, _, hbuf, _⟩ := run_many_non_trigger switch_keys evs st hevs
  have hpend' : (run_many switch_keys st evs).1.pending_action = true := by
    rw [hpend, hp]
  obtain ⟨hfire, htrace, _⟩ :=
    run_step_trigger_up_pending switch_keys (run_many switch_keys st evs).1 t hpend'
  refine ⟨hpend', hbuf, hfire, ?_⟩
  rw [htrace, hbuf]

/-- Witness for C10: with a pending confirmation and buffer "hi", typing "a"
(a non-trigger Down) before the trigger Up neither cancels the correction nor
escapes the buffer: the Up still fires and replays from the grown buffer. -/
theorem pending_survives_other_keys_witness :
    (run_many HOTKEY_STYLES_meta
        { input_buffer := ⟨[(KEY_Q, false)], 0⟩, last_press_time := 0,
          trigger_released := false, shift_pressed := false,
          pending_action := true }
        [⟨KEY_A, 1, 1⟩]).1.pending_action = true ∧
    (run_many HOTKEY_STYLES_meta
        { input_buffer := ⟨[(KEY_Q, false)], 0⟩, last_press_time := 0,
          trigger_released := false, shift_pressed := false,
          pending_action := true }
        [⟨KEY_A, 1, 1⟩]).1.input_buffer
      = (buffer_feed ⟨[(KEY_Q, false)], 0⟩ false [⟨KEY_A, 1, 1⟩]).1 ∧
    (run_step HOTKEY_STYLES_meta
        (run_many HOTKEY_STYLES_meta
          { input_buffer := ⟨[(KEY_Q, false)], 0⟩, last_press_time := 0,
            trigger_released := false, shift_pressed := false,
            pending_action := true }
          [⟨KEY_A, 1, 1⟩]).1 ⟨trigger_btn, 0, 2⟩).2.1 = true ∧
    (run_step HOTKEY_STYLES_meta
        (run_many HOTKEY_STYLES_meta
          { input_buffer := ⟨[(KEY_Q, false)], 0⟩, last_press_time := 0,
            trigger_released := false, shift_pressed := false,
            pending_action := true }
          [⟨KEY_A, 1, 1⟩]).1 ⟨trigger_btn, 0, 2⟩).2.2
      = fix_last_word
          (buffer_feed ⟨[(KEY_Q, false)], 0⟩ false [⟨KEY_A, 1, 1⟩]).1.buffer
          HOTKEY_STYLES_meta :=
  pending_survives_other_keys HOTKEY_STYLES_meta _ _ 2 rfl
    (by
      intro ev hev
      simp only [List.mem_cons, List.not_mem_nil, or_false] at hev
      subst hev
      simp [trigger_btn, KEY_RIGHTSHIFT, KEY_A])

/-- Counterexample for C2: `main.py` has no reset-key clearing at all.  An
Enter Down (a "reset" key per the spec) processed within the idle timeout is
*appended* to the buffer — Enter lies inside `trackable_range` — so the
buffer afterwards is not empty. -/
theorem reset_key_counterexample :
    (run_step HOTKEY_STYLES_meta
        { input_buffer := ⟨[(KEY_Q, false)], 0⟩, last_press_time := 0,
          trigger_released := true, shift_pressed := false,
          pending_action := false }
        ⟨KEY_ENTER, 1, 1⟩).1.input_buffer.buffer
      = [(KEY_Q, false), (KEY_ENTER, false)] ∧
    [(KEY_Q, false), (KEY_ENTER, false)] ≠ ([] : List Keystroke) := by
  constructor
  · norm_num [run_step, InputBuffer.add, trigger_btn, in_trackable_range,
      KEY_RIGHTSHIFT, KEY_LEFTSHIFT, KEY_ENTER, KEY_BACKSPACE, KEY_SPACE,
      KEY_1, KEY_SLASH, KEY_Q, TYPING_TIMEOUT, MAX_BUFFER_SIZE]
  · simp

/-- Within the idle timeout, `add` ignores a code that is neither Backspace
nor Space nor in the trackable range: the buffer is unchanged. -/
theorem add_untracked (s : InputBufferState) (now : ℚ) (c : Nat) (sh : Bool)
    (ht : ¬(now - s.last_key_time > TYPING_TIMEOUT))
    (hc1 : c ≠ KEY_BACKSPACE)
    (hc2 : (c = KEY_SPACE || in_trackable_range c) = false) :
    (InputBuffer.add s now c sh).buffer = s.buffer := by
  simp [InputBuffer.add, ht, hc1, hc2]

/-- Within the idle timeout and below capacity, `add` appends a Space /
trackable-range code to the end of the buffer. -/
theorem add_tracked_append (s : InputBufferState) (now : ℚ) (c : Nat) (sh : Bool)
    (ht : ¬(now - s.last_key_time > TYPING_TIMEOUT))
    (hc1 : c ≠ KEY_BACKSPACE)
    (hc2 : (c = KEY_SPACE || in_trackable_range c) = true)
    (hlen : s.buffer.length < MAX_BUFFER_SIZE) :
    (InputBuffer.add s now c sh).buffer = s.buffer ++ [(c, sh)] := by
  simp [InputBuffer.add, ht, hc1, hc2]
  intro hgt
  exfalso
  simp only [MAX_BUFFER_SIZE] at hgt hlen
  omega

/-- The buffer after a plain (non-trigger, non-shift) key Down is `add`
applied with the current shift flag. -/
theorem run_step_plain_down_buffer (switch_keys : List Nat)
    (st : SwitcherState) (c : Nat) (t : ℚ) (hcode : c ≠ trigger_btn)
    (hsh : ¬(c = KEY_LEFTSHIFT ∨ c = KEY_RIGHTSHIFT)) :
    (run_step switch_keys st ⟨c, 1, t⟩).1.input_buffer
      = InputBuffer.add st.input_buffer t c st.shift_pressed := by
  obtain ⟨_, _, _, hib, _⟩ :=
    run_step_non_trigger switch_keys st ⟨c, 1, t⟩ hcode (Or.inl rfl)
  rw [hib]
  simp [hsh]

/-- C2 (amended): no reset-key wholesale clear exists in `main.py`.  Within
the idle timeout, a Down of Esc, an arrow key or a paging key leaves the
buffer exactly unchanged (these codes fall outside the tracked set and are
ignored), while a Down of Enter or Tab — both inside `trackable_range` — is
appended to the buffer instead of clearing it. -/
theorem reset_keys_amended (switch_keys : List Nat) (st : SwitcherState) (t : ℚ)
    (htime : ¬(t - st.input_buffer.last_key_time > TYPING_TIMEOUT))
    (hlen : st.input_buffer.buffer.length < MAX_BUFFER_SIZE) :
    (∀ c ∈ [KEY_ESC, KEY_UP, KEY_DOWN, KEY_LEFT, KEY_RIGHT, KEY_PAGEUP,
        KEY_PAGEDOWN],
      (run_step switch_keys st ⟨c, 1, t⟩).1.input_buffer.buffer
        = st.input_buffer.buffer) ∧
    (∀ c ∈ [KEY_TAB, KEY_ENTER],
      (run_step switch_keys st ⟨c, 1, t⟩).1.input_buffer.buffer
        = st.input_buffer.buffer ++ [(c, st.shift_pressed)]) := by
  constructor
  · intro c hc
    simp only [List.mem_cons, List.not_mem_nil, or_false] at hc
    rcases hc with rfl | rfl | rfl | rfl | rfl | rfl | rfl <;>
      rw [run_step_plain_down_buffer switch_keys st _ t (by decide) (by decide),
        add_untracked st.input_buffer t _ st.shift_pressed htime (by decide)
          (by decide)]
  · intro c hc
    simp only [List.mem_cons, List.not_mem_nil, or_false] at hc
    rcases hc with rfl | rfl <;>
      rw [run_step_plain_down_buffer switch_keys st _ t (by decide) (by decide),
        add_tracked_append st.input_buffer t _ st.shift_pressed htime (by decide)
          (by decide) hlen]

/-- Witness for C2 (amended): Enter typed within the timeout is appended. -/
theorem reset_keys_amended_witness :
    (run_step HOTKEY_STYLES_meta
        { input_buffer := ⟨[(KEY_Q, false)], 0⟩, last_press_time := 0,
          trigger_released := true, shift_pressed := false,
          pending_action := false }
        ⟨KEY_ENTER, 1, 1⟩).1.input_buffer.buffer
      = [(KEY_Q, false), (KEY_ENTER, false)] :=
  (reset_keys_amended HOTKEY_STYLES_meta
      { input_buffer := ⟨[(KEY_Q, false)], 0⟩, last_press_time := 0,
        trigger_released := true, shift_pressed := false,
        pending_action := false }
      1 (by norm_num [TYPING_TIMEOUT]) (by norm_num [MAX_BUFFER_SIZE])).2
    KEY_ENTER (by simp)

/-- Counterexample for C4: Backspace *is* numerically inside
`trackable_range` (code 14 ∈ range(2, 54)), yet an `add` call after the idle
timeout with Backspace leaves the buffer empty — not containing the new
keystroke — because the Backspace branch runs before the append branch. -/
theorem idle_timeout_backspace_counterexample :
    (KEY_BACKSPACE = KEY_SPACE || in_trackable_range KEY_BACKSPACE) = true ∧
    (InputBuffer.add ⟨[(KEY_A, false)], 0⟩ 4 KEY_BACKSPACE false).buffer
      = ([] : List Keystroke) ∧
    ([] : List Keystroke) ≠ [(KEY_BACKSPACE, false)] := by
  refine ⟨by decide, ?_, by simp⟩
  norm_num [InputBuffer.add, TYPING_TIMEOUT, KEY_BACKSPACE, KEY_A]

/-- C4 (amended): if more than the idle timeout elapsed since the previous
`add` call, the buffer is cleared before the new keystroke is processed, so
for a tracked (Space or trackable-range) code *other than Backspace* the
buffer afterwards contains exactly the new keystroke.  (Backspace, although
numerically inside the trackable range, is consumed by the pop branch and
leaves the just-cleared buffer empty.) -/
theorem idle_timeout_clears_then_appends (s : InputBufferState) (now : ℚ)
    (keycode : Nat) (sh : Bool)
    (ht : now - s.last_key_time > TYPING_TIMEOUT)
    (hk : (keycode = KEY_SPACE || in_trackable_range keycode) = true)
    (hbs : keycode ≠ KEY_BACKSPACE) :
    (InputBuffer.add s now keycode sh).buffer = [(keycode, sh)] := by
  have hcase : (if s.buffer ≠ [] then ([] : List Keystroke) else s.buffer) = [] := by
    by_cases hb : s.buffer = [] <;> simp [hb]
  simp [InputBuffer.add, ht, hbs, hk, hcase, MAX_BUFFER_SIZE]

/-- Witness for C4 (amended): a letter typed 4 seconds after the previous
keystroke ends up alone in the buffer. -/
theorem idle_timeout_clears_then_appends_witness :
    (InputBuffer.add ⟨[(KEY_Q, false)], 0⟩ 4 KEY_A false).buffer
      = [(KEY_A, false)] :=
  idle_timeout_clears_then_appends ⟨[(KEY_Q, false)], 0⟩ 4 KEY_A false
    (by norm_num [TYPING_TIMEOUT]) (by decide) (by decide)

/-- Every branch of `add` unconditionally refreshes `last_key_time` to the
current call's time (`main.py` line 179 runs before any dispatch on the
keycode). -/
theorem add_sets_last_key_time (s : InputBufferState) (now : ℚ) (c : Nat)
    (sh : Bool) : (InputBuffer.add s now c sh).last_key_time = now := by
  simp only [InputBuffer.add]
  split_ifs <;> rfl

/-- `add_no_timeout` also refreshes `last_key_time` on every call. -/
theorem add_no_timeout_sets_last_key_time (s : InputBufferState) (now : ℚ)
    (c : Nat) (sh : Bool) :
    (InputBuffer.add_no_timeout s now c sh).last_key_time = now := by
  simp only [InputBuffer.add_no_timeout]
  split_ifs <;> rfl

/-- When the call arrives within the idle timeout of the previous one, `add`
behaves exactly like the timeout-free `add_no_timeout`. -/
theorem add_within_timeout (s : InputBufferState) (now : ℚ) (c : Nat)
    (sh : Bool) (ht : ¬(now - s.last_key_time > TYPING_TIMEOUT)) :
    InputBuffer.add s now c sh = InputBuffer.add_no_timeout s now c sh := by
  simp [InputBuffer.add, InputBuffer.add_no_timeout, ht]

/-- C9: `add` refreshes the stored `last_key_time` on every call — including
Backspace and untracked codes that leave the contents unchanged — and hence a
chain of `add` calls whose consecutive gaps all stay within the idle timeout
coincides with the timeout-free behaviour: the idle clear never fires, even
when far more than the timeout elapsed since the last appended keystroke. -/
theorem add_refreshes_time_and_chain_never_clears (s : InputBufferState)
    (now : ℚ) (c : Nat) (sh : Bool) (evs : List (ℚ × Nat × Bool))
    (hgaps : gaps_within_timeout s.last_key_time evs) :
    (InputBuffer.add s now c sh).last_key_time = now ∧
    add_fold s evs = add_fold_no_timeout s evs := by
  refine ⟨add_sets_last_key_time s now c sh, ?_⟩
  induction evs generalizing s with
  | nil => rfl
  | cons e rest ih =>
    obtain ⟨t, c2, sh2⟩ := e
    obtain ⟨hg, hrest⟩ := hgaps
    have ht : ¬(t - s.last_key_time > TYPING_TIMEOUT) := not_lt.mpr hg
    have hstep := add_within_timeout s t c2 sh2 ht
    show add_fold (InputBuffer.add s t c2 sh2) rest
        = add_fold_no_timeout (InputBuffer.add_no_timeout s t c2 sh2) rest
    rw [hstep]
    exact ih (InputBuffer.add_no_timeout s t c2 sh2)
      (by rw [add_no_timeout_sets_last_key_time]; exact hrest)

/-- Witness for C9: an untracked Esc two seconds in refreshes the clock, so a
letter four seconds after the last *appended* keystroke still joins the
buffer without any clear. -/
theorem add_refreshes_time_and_chain_never_clears_witness :
    (InputBuffer.add ⟨[(KEY_Q, false)], 0⟩ 2 KEY_ESC false).last_key_time = 2 ∧
    add_fold ⟨[(KEY_Q, false)], 0⟩ [(2, KEY_ESC, false), (4, KEY_A, false)]
      = add_fold_no_timeout ⟨[(KEY_Q, false)], 0⟩
          [(2, KEY_ESC, false), (4, KEY_A, false)] :=
  add_refreshes_time_and_chain_never_clears ⟨[(KEY_Q, false)], 0⟩ 2 KEY_ESC
    false [(2, KEY_ESC, false), (4, KEY_A, false)]
    (by norm_num [gaps_within_timeout, TYPING_TIMEOUT])

/-- `for _ in range(n)` emitting a fixed block equals flattening `n` copies
of the block. -/
theorem range_flatMap_const {α : Type} (n : Nat) (l : List α) :
    (List.range n).flatMap (fun _ => l) = (List.replicate n l).flatten := by
  induction n with
  | zero => simp
  | succ m ih =>
    rw [List.range_succ, List.flatMap_append, ih, List.replicate_succ' m l,
      List.flatten_append]
    simp

/-- The `n` Backspace press/release pairs contain exactly `n` press events. -/
theorem count_bp_pairs_press (n : Nat) :
    ((List.replicate n
        [((KEY_BACKSPACE : Nat), (1 : Nat)), (KEY_BACKSPACE, 0)]).flatten.count
      ((KEY_BACKSPACE, 1) : SinkEv)) = n := by
  induction n with
  | zero => simp
  | succ m ih =>
    rw [List.replicate_succ, List.flatten_cons, List.count_append, ih]
    simp [List.count_cons]
    omega

/-- The `n` Backspace press/release pairs contain exactly `n` release events. -/
theorem count_bp_pairs_release (n : Nat) :
    ((List.replicate n
        [((KEY_BACKSPACE : Nat), (1 : Nat)), (KEY_BACKSPACE, 0)]).flatten.count
      ((KEY_BACKSPACE, 0) : SinkEv)) = n := by
  induction n with
  | zero => simp
  | succ m ih =>
    rw [List.replicate_succ, List.flatten_cons, List.count_append, ih]
    simp [List.count_cons]
    omega

/-- Pressing or releasing a list of keys that does not contain Backspace
produces no Backspace events. -/
theorem count_bp_map_const_zero (ks : List Nat) (w v : Nat)
    (hks : KEY_BACKSPACE ∉ ks) :
    (ks.map (fun k => ((k, w) : SinkEv))).count ((KEY_BACKSPACE, v) : SinkEv)
      = 0 := by
  induction ks with
  | nil => simp
  | cons a l ih =>
    simp only [List.mem_cons, not_or] at hks
    have hne : a ≠ KEY_BACKSPACE := fun h => hks.1 h.symm
    rw [List.map_cons, List.count_cons, ih hks.2]
    simp [hne]

/-- The layout-switch trace of a Backspace-free combination contains no
Backspace events. -/
theorem count_bp_switch_zero (ks : List Nat) (v : Nat)
    (hks : KEY_BACKSPACE ∉ ks) :
    (perform_layout_switch ks).count ((KEY_BACKSPACE, v) : SinkEv) = 0 := by
  by_cases h : ks = []
  · simp [perform_layout_switch, h]
  · rw [perform_layout_switch, if_neg h, List.count_append,
      count_bp_map_const_zero ks 1 v hks, count_bp_map_const_zero ks 0 v hks]

/-- Replaying keystrokes none of which is Backspace produces no Backspace
events (the Shift wraps use Left Shift, not Backspace). -/
theorem count_bp_replay_zero (seq : List Keystroke) (v : Nat)
    (hseq : ∀ p ∈ seq, p.1 ≠ KEY_BACKSPACE) :
    (replay_keys seq).count ((KEY_BACKSPACE, v) : SinkEv) = 0 := by
  induction seq with
  | nil => simp [replay_keys]
  | cons p rest ih =>
    have hp : p.1 ≠ KEY_BACKSPACE := hseq p (List.mem_cons_self p rest)
    have hrest : ∀ q ∈ rest, q.1 ≠ KEY_BACKSPACE :=
      fun q hq => hseq q (List.mem_cons_of_mem p hq)
    have hsplit : replay_keys (p :: rest)
        = ((if p.2 then [((KEY_LEFTSHIFT : Nat), (1 : Nat))] else [])
            ++ [(p.1, 1), (p.1, 0)]
            ++ (if p.2 then [((KEY_LEFTSHIFT : Nat), (0 : Nat))] else []))
          ++ replay_keys rest := by
      simp [replay_keys]
    rw [hsplit, List.count_append, ih hrest]
    have hp14 : p.1 ≠ 14 := by simpa [KEY_BACKSPACE] using hp
    rcases hb : p.2 <;>
      simp [hb, List.count_cons, List.count_append, KEY_LEFTSHIFT,
        KEY_BACKSPACE] <;>
      exact ⟨fun h => absurd h hp14, fun h => absurd h hp14⟩

/-- Every element of the extracted phrase is an element of the buffer. -/
theorem mem_get_last_phrase {p : Keystroke} {buf : List Keystroke}
    (h : p ∈ InputBuffer.get_last_phrase buf) : p ∈ buf := by
  rw [get_last_phrase_characterization] at h
  unfold lastPhraseSpec at h
  simp only [List.mem_append, List.mem_reverse] at h
  rcases h with h | h
  · exact List.mem_reverse.mp
      ((List.dropWhile_sublist isSpaceKS).mem ((List.takeWhile_sublist _).mem h))
  · exact List.mem_reverse.mp ((List.takeWhile_sublist _).mem h)

/-- Counterexample for C1: on the 3-element buffer "a␣b" the correction
deletes only the last phrase (one Backspace pair, not three), and the buffer
is *not* cleared by the call — `fix_last_word` never mutates it. -/
theorem fix_last_word_counterexample :
    ((fix_last_word [(KEY_A, false), (KEY_SPACE, false), (KEY_B, false)]
        HOTKEY_STYLES_meta).count ((KEY_BACKSPACE, 1) : SinkEv) = 1
      ∧ (1 : Nat) ≠ 3) ∧
    ((run_step HOTKEY_STYLES_meta
        { input_buffer := ⟨[(KEY_A, false), (KEY_SPACE, false), (KEY_B, false)], 0⟩,
          last_press_time := 0, trigger_released := false,
          shift_pressed := false, pending_action := true }
        ⟨KEY_RIGHTSHIFT, 0, 1⟩).2.1 = true
      ∧ (run_step HOTKEY_STYLES_meta
          { input_buffer := ⟨[(KEY_A, false), (KEY_SPACE, false), (KEY_B, false)], 0⟩,
            last_press_time := 0, trigger_released := false,
            shift_pressed := false, pending_action := true }
          ⟨KEY_RIGHTSHIFT, 0, 1⟩).1.input_buffer.buffer
        = [(KEY_A, false), (KEY_SPACE, false), (KEY_B, false)]
      ∧ [(KEY_A, false), (KEY_SPACE, false), (KEY_B, false)]
        ≠ ([] : List Keystroke)) := by
  refine ⟨⟨?_, by decide⟩, ?_, ?_, by simp⟩
  · decide
  · norm_num [run_step, trigger_btn, KEY_RIGHTSHIFT, KEY_LEFTSHIFT]
  · norm_num [run_step, trigger_btn, KEY_RIGHTSHIFT, KEY_LEFTSHIFT]

/-- C1 (amended): on a non-empty last phrase of length `M`, `fix_last_word`
emits the modifier resets, then exactly `M` Backspace press/release pairs,
then the one layout-switch combination press/release, then the `M` replay
pairs (Shift-wrapped per flag), strictly in that order; the correction runs
at the trigger release and emits exactly this trace; and the buffer is
unchanged — not cleared — after the call. -/
theorem fix_last_word_amended (switch_keys : List Nat) (buf : List Keystroke)
    (st : SwitcherState) (t : ℚ)
    (hne : InputBuffer.get_last_phrase buf ≠ [])
    (hks : KEY_BACKSPACE ∉ switch_keys)
    (hbuf : ∀ p ∈ buf, p.1 ≠ KEY_BACKSPACE)
    (hst : st.input_buffer.buffer = buf)
    (hp : st.pending_action = true) :
    fix_last_word buf switch_keys
      = reset_modifiers
          ++ (List.replicate (InputBuffer.get_last_phrase buf).length
                [(KEY_BACKSPACE, 1), (KEY_BACKSPACE, 0)]).flatten
          ++ perform_layout_switch switch_keys
          ++ replay_keys (InputBuffer.get_last_phrase buf) ∧
    (fix_last_word buf switch_keys).count ((KEY_BACKSPACE, 1) : SinkEv)
      = (InputBuffer.get_last_phrase buf).length ∧
    (fix_last_word buf switch_keys).count ((KEY_BACKSPACE, 0) : SinkEv)
      = (InputBuffer.get_last_phrase buf).length ∧
    (run_step switch_keys st ⟨trigger_btn, 0, t⟩).2.1 = true ∧
    (run_step switch_keys st ⟨trigger_btn, 0, t⟩).2.2
      = fix_last_word buf switch_keys ∧
    (run_step switch_keys st ⟨trigger_btn, 0, t⟩).1.input_buffer.buffer
      = buf := by
  have hphrase : ∀ p ∈ InputBuffer.get_last_phrase buf, p.1 ≠ KEY_BACKSPACE :=
    fun p hp2 => hbuf p (mem_get_last_phrase hp2)
  have heq : fix_last_word buf switch_keys
      = reset_modifiers
          ++ (List.replicate (InputBuffer.get_last_phrase buf).length
                [(KEY_BACKSPACE, 1), (KEY_BACKSPACE, 0)]).flatten
          ++ perform_layout_switch switch_keys
          ++ replay_keys (InputBuffer.get_last_phrase buf) := by
    rw [fix_last_word]
    simp only [if_neg hne, range_flatMap_const]
  have hreset1 : reset_modifiers.count ((KEY_BACKSPACE, 1) : SinkEv) = 0 := by
    decide
  have hreset0 : reset_modifiers.count ((KEY_BACKSPACE, 0) : SinkEv) = 0 := by
    decide
  obtain ⟨hfire, htrace, hbufkeep⟩ :=
    run_step_trigger_up_pending switch_keys st t hp
  refine ⟨heq, ?_, ?_, hfire, ?_, ?_⟩
  · rw [heq]
    simp only [List.count_append, hreset1, count_bp_pairs_press,
      count_bp_switch_zero switch_keys 1 hks,
      count_bp_replay_zero (InputBuffer.get_last_phrase buf) 1 hphrase]
    omega
  · rw [heq]
    simp only [List.count_append, hreset0, count_bp_pairs_release,
      count_bp_switch_zero switch_keys 0 hks,
      count_bp_replay_zero (InputBuffer.get_last_phrase buf) 0 hphrase]
    omega
  · rw [htrace, hst]
  · rw [hbufkeep, hst]

/-- Witness for C1 (amended): buffer "qS" (S shifted), meta combination. -/
theorem fix_last_word_amended_witness :
    fix_last_word [(KEY_Q, false), (KEY_S, true)] HOTKEY_STYLES_meta
      = reset_modifiers
          ++ (List.replicate
                (InputBuffer.get_last_phrase
                  [(KEY_Q, false), (KEY_S, true)]).length
                [(KEY_BACKSPACE, 1), (KEY_BACKSPACE, 0)]).flatten
          ++ perform_layout_switch HOTKEY_STYLES_meta
          ++ replay_keys
              (InputBuffer.get_last_phrase [(KEY_Q, false), (KEY_S, true)]) ∧
    (fix_last_word [(KEY_Q, false), (KEY_S, true)] HOTKEY_STYLES_meta).count
        ((KEY_BACKSPACE, 1) : SinkEv)
      = (InputBuffer.get_last_phrase [(KEY_Q, false), (KEY_S, true)]).length ∧
    (fix_last_word [(KEY_Q, false), (KEY_S, true)] HOTKEY_STYLES_meta).count
        ((KEY_BACKSPACE, 0) : SinkEv)
      = (InputBuffer.get_last_phrase [(KEY_Q, false), (KEY_S, true)]).length ∧
    (run_step HOTKEY_STYLES_meta
        { input_buffer := ⟨[(KEY_Q, false), (KEY_S, true)], 0⟩,
          last_press_time := 0, trigger_released := false,
          shift_pressed := false, pending_action := true }
        ⟨trigger_btn, 0, 1⟩).2.1 = true ∧
    (run_step HOTKEY_STYLES_meta
        { input_buffer := ⟨[(KEY_Q, false), (KEY_S, true)], 0⟩,
          last_press_time := 0, trigger_released := false,
          shift_pressed := false, pending_action := true }
        ⟨trigger_btn, 0, 1⟩).2.2
      = fix_last_word [(KEY_Q, false), (KEY_S, true)] HOTKEY_STYLES_meta ∧
    (run_step HOTKEY_STYLES_meta
        { input_buffer := ⟨[(KEY_Q, false), (KEY_S, true)], 0⟩,
          last_press_time := 0, trigger_released := false,
          shift_pressed := false, pending_action := true }
        ⟨trigger_btn, 0, 1⟩).1.input_buffer.buffer
      = [(KEY_Q, false), (KEY_S, true)] :=
  fix_last_word_amended HOTKEY_STYLES_meta [(KEY_Q, false), (KEY_S, true)]
    { input_buffer := ⟨[(KEY_Q, false), (KEY_S, true)], 0⟩,
      last_press_time := 0, trigger_released := false,
      shift_pressed := false, pending_action := true }
    1 (by decide) (by decide) (by decide) rfl rfl
